import Mathlib

/-!
Verification of the ffmpeg-light specification against a shallow Lean
embedding of the crate's source.

Modelling conventions:
* Rust `u32`/`u64` become `Nat` (with explicit `< 2 ^ 64` bounds where the
  source's parsing can overflow).
* Rust `f64`/`f32` arithmetic is modelled exactly over `ℚ`; the handful of
  IEEE special values the source can observe (`inf`, `-inf`, `NaN`) are
  modelled by the explicit sum type `FV`.  Concrete counterexample inputs are
  chosen dyadic and small so the real `f64` computation is exact there.
* `String` stays `String`; Rust's byte-oriented operations are modelled over
  `List Char` together with an explicit UTF-8 byte-size function.
* Fallible Rust code returns `Option`/`Except`; a Rust panic is modelled as
  `none` at the outermost level of the function that can panic.
-/

namespace FfmpegLight

/-- One decimal digit character (`0`-`9`); out-of-range inputs (never produced
by the renderers below) fall back to `0`. -/
def digitChar : Nat → Char
  | 0 => '0'
  | 1 => '1'
  | 2 => '2'
  | 3 => '3'
  | 4 => '4'
  | 5 => '5'
  | 6 => '6'
  | 7 => '7'
  | 8 => '8'
  | 9 => '9'
  | _ => '0'

/-- Fuel-bounded core of `natDigits` (the fuel `n + 1` always suffices, as a
number has no more digits than its own magnitude). -/
def natDigitsAux : Nat → Nat → List Char
  | 0, _ => []
  | fuel + 1, n =>
      if n < 10 then [digitChar n]
      else natDigitsAux fuel (n / 10) ++ [digitChar (n % 10)]

/-- Decimal digits of a natural number, most significant first (model of
Rust's `Display` for unsigned integers). -/
def natDigits (n : Nat) : List Char := natDigitsAux (n + 1) n

/-- Decimal rendering of a natural number. -/
def natStr (n : Nat) : String := String.mk (natDigits n)

/-- Zero-pad to width 2 (model of Rust's `{:02}` format). -/
def pad2 (n : Nat) : String :=
  if n < 10 then "0" ++ natStr n else natStr n

/-- Zero-pad to width 3 (model of Rust's `{:03}` format). -/
def pad3 (n : Nat) : String :=
  if n < 10 then "00" ++ natStr n
  else if n < 100 then "0" ++ natStr n
  else natStr n

/-- Model of Rust's `Vec::join` on strings with a separator. -/
def joinSep (sep : String) : List String → String
  | [] => ""
  | [x] => x
  | x :: y :: xs => x ++ sep ++ joinSep sep (y :: xs)

/-- Fractional decimal digits of `num / den` (with `num < den`), up to the
given precision; stops early when the expansion terminates. -/
def fracDigits : Nat → Nat → Nat → List Char
  | 0, _, _ => []
  | prec + 1, num, den =>
      if num = 0 then []
      else digitChar (num * 10 / den) :: fracDigits prec (num * 10 % den) den

/-- Decimal rendering of a rational number: model of Rust's default `Display`
formatting for `f64`/`f32` values (sign, integer part, then a fractional part
only when non-zero).  The precision cap of 30 digits is irrelevant to the
claims (only the character inventory of the output matters). -/
def fmtRat (q : ℚ) : String :=
  let sign := if q < 0 then "-" else ""
  let n := q.num.natAbs
  let d := q.den
  let ip := n / d
  let fr := n % d
  sign ++ natStr ip ++
    (if fr = 0 then "" else String.mk ('.' :: fracDigits 30 fr d))

/-- Model of Rust's `f64::round`: round half away from zero. -/
def rustRound (q : ℚ) : Int :=
  if 0 ≤ q then ⌊q + 1 / 2⌋ else -⌊-q + 1 / 2⌋

/-- ASCII lower-casing of one character (model of the effect of Rust's
`str::to_lowercase` on the ASCII inputs the claims quantify over). -/
def toLowerChar (c : Char) : Char :=
  if 'A' ≤ c ∧ c ≤ 'Z' then Char.ofNat (c.toNat + 32) else c

/-- ASCII lower-casing of a string. -/
def toLowerStr (s : String) : String := String.mk (s.data.map toLowerChar)

/-! ## `types.rs`: `Duration`, `Time` -/

/-- Model of `std::time::Duration`: whole seconds plus sub-second
nanoseconds. -/
structure Duration where
  secs : Nat
  nanos : Nat
  deriving Repr, DecidableEq

/-- Model of `types.rs` `Time` (a newtype over `Duration`). -/
structure Time where
  dur : Duration
  deriving Repr, DecidableEq

/-- `Time::from_seconds` (whole seconds). -/
def Time.from_seconds (seconds : Nat) : Time := ⟨⟨seconds, 0⟩⟩

/-- `Time::from_seconds_f64`, `types.rs` lines 22-27, with the `f64`
arithmetic idealised exactly over `ℚ`:
`nanos = (seconds * 1e9).round()`, then truncating split into whole seconds
and sub-second nanoseconds. -/
def Time.from_seconds_f64 (seconds : ℚ) : Time :=
  let nanos : Int := rustRound (seconds * 1000000000)
  let secs : Nat := (nanos / 1000000000).toNat
  let sub_nanos : Nat := (nanos % 1000000000).toNat
  ⟨⟨secs, sub_nanos⟩⟩

/-- `Duration::subsec_millis`: truncating division of the sub-second
nanoseconds by one million. -/
def Duration.subsec_millis (d : Duration) : Nat := d.nanos / 1000000

/-- `Time::to_ffmpeg_timestamp`, `types.rs` lines 40-47: zero-padded
`HH:MM:SS.mmm` with truncating integer division throughout (the millisecond
field comes from `subsec_millis`, which truncates). -/
def Time.to_ffmpeg_timestamp (t : Time) : String :=
  let total_secs := t.dur.secs
  let hours := total_secs / 3600
  let minutes := (total_secs % 3600) / 60
  let seconds := total_secs % 60
  let millis := t.dur.subsec_millis
  pad2 hours ++ ":" ++ pad2 minutes ++ ":" ++ pad2 seconds ++ "." ++ pad3 millis

/-! ## `types.rs`: `CodecType` -/

/-- Model of `types.rs` `CodecType`. -/
inductive CodecType where
  | H264
  | Hevc
  | Vp9
  | Av1
  | Aac
  | Mp3
  | Opus
  | PcmS16Le
  | Copy
  | Other (name : String)
  deriving Repr, DecidableEq

/-- The match arms of `CodecType::from_name` applied to the already
lower-cased name (`types.rs` lines 95-108). -/
def CodecType.from_lowered (l : String) : CodecType :=
  if l = "h264" ∨ l = "libx264" then .H264
  else if l = "hevc" ∨ l = "h265" ∨ l = "libx265" then .Hevc
  else if l = "vp9" then .Vp9
  else if l = "av1" then .Av1
  else if l = "aac" then .Aac
  else if l = "mp3" then .Mp3
  else if l = "opus" then .Opus
  else if l = "pcm_s16le" then .PcmS16Le
  else if l = "copy" then .Copy
  else .Other l

/-- `CodecType::from_name`: lower-case, then match against the fixed table. -/
def CodecType.from_name (name : String) : CodecType :=
  CodecType.from_lowered (toLowerStr name)

/-- `CodecType::as_str`, `types.rs` lines 111-124. -/
def CodecType.as_str : CodecType → String
  | .H264 => "libx264"
  | .Hevc => "libx265"
  | .Vp9 => "libvpx-vp9"
  | .Av1 => "libaom-av1"
  | .Aac => "aac"
  | .Mp3 => "libmp3lame"
  | .Opus => "libopus"
  | .PcmS16Le => "pcm_s16le"
  | .Copy => "copy"
  | .Other name => name

/-! ## `filter.rs`: video and audio filters -/

/-- Model of `filter.rs` `DenoiseStrength`. -/
inductive DenoiseStrength where
  | Light
  | Medium
  | Heavy
  deriving Repr, DecidableEq

/-- `DenoiseStrength::to_filter_value`, `filter.rs` lines 58-66. -/
def DenoiseStrength.to_filter_value : DenoiseStrength → String
  | .Light => "hqdn3d=1.5:1.5:6:6"
  | .Medium => "hqdn3d=3:3:6:6"
  | .Heavy => "hqdn3d=5:5:6:6"

/-- Model of `filter.rs` `VideoFilter`; `f64`/`f32` parameters become `ℚ`,
`u32` parameters become `Nat`.  `end_` stands for the Rust field `end`. -/
inductive VideoFilter where
  | Scale (width height : Nat)
  | Trim (start : Time) (end_ : Option Time)
  | Crop (width height x y : Nat)
  | Rotate (degrees : ℚ)
  | Flip (direction : Char)
  | BrightnessContrast (brightness contrast : Option ℚ)
  | Denoise (strength : DenoiseStrength)
  | Deinterlace
  | Custom (raw : String)
  deriving Repr, DecidableEq

/-- Whether a video filter is the `Custom` escape variant. -/
def VideoFilter.isCustom : VideoFilter → Bool
  | .Custom _ => true
  | _ => false

/-- The exact `ℚ` value of the `f64` constant `std::f64::consts::PI`
(`884279719003555 * 2 ^ -48`). -/
def pi64 : ℚ := 884279719003555 / 281474976710656

/-- The `if let Some(x) = field { parts.push(format!("key={x}")) }` pattern
shared by the `BrightnessContrast` and `Equalizer` renderings. -/
def optPart (pre : String) : Option ℚ → List String
  | some v => [pre ++ fmtRat v]
  | none => []

/-- `VideoFilter::to_filter_string`, `filter.rs` lines 70-111.  `Time` values
interpolate through their `Display`, which is `to_ffmpeg_timestamp`; the
`Rotate` variant converts degrees to radians with the `f64` `PI` constant
(arithmetic idealised exactly over `ℚ`). -/
def VideoFilter.to_filter_string : VideoFilter → String
  | .Scale width height => "scale=" ++ natStr width ++ ":" ++ natStr height
  | .Trim start none => "trim=start=" ++ start.to_ffmpeg_timestamp
  | .Trim start (some e) =>
      "trim=start=" ++ start.to_ffmpeg_timestamp ++ ":end=" ++
        e.to_ffmpeg_timestamp
  | .Crop width height x y =>
      "crop=" ++ natStr width ++ ":" ++ natStr height ++ ":" ++ natStr x ++
        ":" ++ natStr y
  | .Rotate degrees => "rotate=" ++ fmtRat (degrees * pi64 / 180)
  | .Flip direction =>
      if direction = 'h' then "hflip"
      else if direction = 'v' then "vflip"
      else "hflip"
  | .BrightnessContrast brightness contrast =>
      let parts : List String :=
        optPart "brightness=" brightness ++ optPart "contrast=" contrast
      if parts = [] then "eq" else "eq=" ++ joinSep ":" parts
  | .Denoise strength => strength.to_filter_value
  | .Deinterlace => "yadif"
  | .Custom raw => raw

/-- Model of `filter.rs` `AudioFilter`; `f32` parameters become `ℚ`. -/
inductive AudioFilter where
  | Volume (vol : ℚ)
  | Equalizer (bass mid treble : Option ℚ)
  | Normalization (target_level : ℚ)
  | HighPass (frequency : ℚ)
  | LowPass (frequency : ℚ)
  | Custom (raw : String)
  deriving Repr, DecidableEq

/-- Whether an audio filter is the `Custom` escape variant. -/
def AudioFilter.isCustom : AudioFilter → Bool
  | .Custom _ => true
  | _ => false

/-- `AudioFilter::to_filter_string`, `filter.rs` lines 149-180. -/
def AudioFilter.to_filter_string : AudioFilter → String
  | .Volume vol => "volume=" ++ fmtRat vol
  | .Equalizer bass mid treble =>
      let parts : List String :=
        optPart "b=" bass ++ optPart "m=" mid ++ optPart "t=" treble
      if parts = [] then "superequalizer"
      else "superequalizer=" ++ joinSep ":" parts
  | .Normalization target_level =>
      "anlmdn=m=I:p=0.05,loudnorm=I=" ++ fmtRat target_level
  | .HighPass frequency => "highpass=f=" ++ fmtRat frequency
  | .LowPass frequency => "lowpass=f=" ++ fmtRat frequency
  | .Custom raw => raw

/-! ## `f64` values and the string parsers of `probe.rs` -/

/-- A parsed `f64` value: a finite value (exact rational idealisation) or one
of the IEEE special values observable through Rust's `f64::from_str`. -/
inductive FV where
  | finite (q : ℚ)
  | inf
  | negInf
  | nan
  deriving Repr, DecidableEq

/-- `f64::EPSILON` (`2 ^ -52`), exactly. -/
def EPSILON : ℚ := 1 / 4503599627370496

/-- The magnitude threshold at which round-to-nearest `f64` conversion
overflows to infinity (`2 ^ 1024 - 2 ^ 970`). -/
def ovThreshold : ℚ := 2 ^ 1024 - 2 ^ 970

/-- Nonempty all-digit character list to its value. -/
def parseDigits (cs : List Char) : Option Nat :=
  if cs ≠ [] ∧ cs.all Char.isDigit then
    some (cs.foldl (fun acc c => acc * 10 + (c.toNat - 48)) 0)
  else none

/-- Value of a (possibly empty) all-digit character list; `none` if any
character is not a digit. -/
def parseDigitsOpt (cs : List Char) : Option Nat :=
  if cs.all Char.isDigit then
    some (cs.foldl (fun acc c => acc * 10 + (c.toNat - 48)) 0)
  else none

/-- Split a character list at the first occurrence of `sep`; `none` when
`sep` does not occur (model of Rust's `str::split_once`). -/
def splitOnceList (sep : Char) : List Char → Option (List Char × List Char)
  | [] => none
  | c :: cs =>
      if c = sep then some ([], cs)
      else (splitOnceList sep cs).map (fun p => (c :: p.1, p.2))

/-- Mantissa of a decimal number: `digits`, `digits.digits`, `digits.` or
`.digits` (at least one digit overall), as an exact rational. -/
def parseMantissa (cs : List Char) : Option ℚ :=
  match splitOnceList '.' cs with
  | none => (parseDigits cs).map (fun n => (n : ℚ))
  | some (a, b) =>
      if a = [] ∧ b = [] then none
      else
        match parseDigitsOpt a, parseDigitsOpt b with
        | some ia, some fb =>
            some ((ia : ℚ) + (fb : ℚ) / 10 ^ b.length)
        | _, _ => none

/-- Optional exponent part after `e`/`E`: optional sign then digits. -/
def parseExponent (cs : List Char) : Option Int :=
  match cs with
  | '+' :: rest => (parseDigits rest).map (fun n => (n : Int))
  | '-' :: rest => (parseDigits rest).map (fun n => -(n : Int))
  | rest => (parseDigits rest).map (fun n => (n : Int))

/-- Split a character list at the first `e` or `E`. -/
def splitExp (cs : List Char) : List Char × Option (List Char) :=
  match splitOnceList 'e' cs with
  | some (a, b) => (a, some b)
  | none =>
      match splitOnceList 'E' cs with
      | some (a, b) => (a, some b)
      | none => (cs, none)

/-- Magnitude of an unsigned decimal literal (mantissa with optional
exponent), as an exact rational. -/
def parseUnsignedNumber (cs : List Char) : Option ℚ :=
  let (mant, expPart) := splitExp cs
  match parseMantissa mant with
  | none => none
  | some m =>
      match expPart with
      | none => some m
      | some e =>
          match parseExponent e with
          | none => none
          | some ex => some (m * 10 ^ ex)

/-- Leading-sign handling of Rust's `f64::from_str`: `true` means negative. -/
def stripSign (cs : List Char) : Bool × List Char :=
  match cs with
  | '+' :: r => (false, r)
  | '-' :: r => (true, r)
  | r => (false, r)

/-- Conversion of an exact literal value to an `f64`-observable value:
magnitudes at or beyond the overflow threshold round to the infinities, as
they do in Rust. -/
def fvOfRat (q : ℚ) : FV :=
  if ovThreshold ≤ q then .inf
  else if q ≤ -ovThreshold then .negInf
  else .finite q

/-- Model of Rust's `f64::from_str`: optional sign, then (case-insensitively)
`inf`/`infinity`/`nan` or a decimal number; finite results are the exact
rational value of the literal (idealising the rounding to the nearest `f64`),
except that overflowing magnitudes become infinities, as they do in Rust. -/
def parseF64 (s : String) : Option FV :=
  match s.data with
  | [] => none
  | cs =>
      let sign := stripSign cs
      let low := sign.2.map toLowerChar
      if low = "inf".data ∨ low = "infinity".data then
        some (if sign.1 then .negInf else .inf)
      else if low = "nan".data then some .nan
      else
        (parseUnsignedNumber sign.2).map fun m =>
          fvOfRat (if sign.1 then -m else m)

/-- `|den| < eps` on parsed `f64` values: the comparison Rust performs in
`parse_ratio`'s denominator guard (`false` on `NaN` and infinities, exactly
as IEEE comparison is). -/
def FV.absLt (v : FV) (eps : ℚ) : Bool :=
  match v with
  | .finite q => |q| < eps
  | _ => false

/-- IEEE division on parsed `f64` values (finite quotients idealised as exact
rationals). -/
def FV.div : FV → FV → FV
  | .nan, _ => .nan
  | _, .nan => .nan
  | .inf, .inf => .nan
  | .inf, .negInf => .nan
  | .negInf, .inf => .nan
  | .negInf, .negInf => .nan
  | .inf, .finite q => if q < 0 then .negInf else .inf
  | .negInf, .finite q => if q < 0 then .inf else .negInf
  | .finite _, .inf => .finite 0
  | .finite _, .negInf => .finite 0
  | .finite a, .finite b =>
      if b = 0 then (if a = 0 then .nan else if 0 < a then .inf else .negInf)
      else .finite (a / b)

/-- `probe.rs` `parse_ratio`, lines 169-184: verbatim `"0/0"`/`"0"` guard,
split at the first `/`, parse both sides as `f64`, reject denominators with
`|den| < f64::EPSILON`, otherwise the quotient; a slash-free input parses
directly. -/
def parse_ratio (raw : Option String) : Option FV :=
  match raw with
  | none => none
  | some raw =>
      if raw = "0/0" ∨ raw = "0" then none
      else
        match splitOnceList '/' raw.data with
        | some (numS, denS) =>
            match parseF64 (String.mk numS), parseF64 (String.mk denS) with
            | some num, some den =>
                if den.absLt EPSILON then none else some (num.div den)
            | _, _ => none
        | none => parseF64 raw

/-- Model of Rust's `u64::from_str`: optional `+`, digits, value below
`2 ^ 64`. -/
def parseU64 (s : String) : Option Nat :=
  let cs :=
    match s.data with
    | '+' :: rest => rest
    | rest => rest
  match parseDigits cs with
  | some n => if n < 2 ^ 64 then some n else none
  | none => none

/-- `probe.rs` `parse_u64`, lines 161-163. -/
def parse_u64 (raw : Option String) : Option Nat :=
  raw.bind parseU64

/-- Model of Rust's `u32::from_str`. -/
def parseU32 (s : String) : Option Nat :=
  let cs :=
    match s.data with
    | '+' :: rest => rest
    | rest => rest
  match parseDigits cs with
  | some n => if n < 2 ^ 32 then some n else none
  | none => none

/-- `probe.rs` `parse_u32`, lines 165-167. -/
def parse_u32 (raw : Option String) : Option Nat :=
  raw.bind parseU32

/-- Model of Rust's `Duration::from_secs_f64` (arithmetic idealised over
`ℚ`): rounds to the nearest nanosecond; `none` models the Rust panic raised
when the input is negative, not finite, or overflows the `u64` second
count. -/
def Duration.from_secs_f64 (v : FV) : Option Duration :=
  match v with
  | .finite q =>
      if 0 ≤ q then
        let nanos := rustRound (q * 1000000000)
        let secs := nanos / 1000000000
        if secs < 2 ^ 64 then some ⟨secs.toNat, (nanos % 1000000000).toNat⟩
        else none
      else none
  | _ => none

/-- `probe.rs` `parse_duration`, lines 156-159:
`raw.and_then(parse f64).map(Duration::from_secs_f64)`.  The outer `Option`
models panic-freedom: `none` means the call panics (inside
`Duration::from_secs_f64`); `some none` means the duration field degrades to
absent; `some (some d)` is a successfully parsed duration. -/
def parse_duration (raw : Option String) : Option (Option Duration) :=
  match raw with
  | none => some none
  | some value =>
      match parseF64 value with
      | none => some none
      | some v =>
          match Duration.from_secs_f64 v with
          | some d => some (some d)
          | none => none

/-! ## `types.rs` / `probe.rs`: probe data model and stream conversion -/

/-- Model of `types.rs` `FormatInfo`. -/
structure FormatInfo where
  format_name : Option String
  format_long_name : Option String
  duration : Option Duration
  bit_rate : Option Nat
  size : Option Nat
  deriving Repr, DecidableEq

/-- Model of `types.rs` `VideoStreamInfo`. -/
structure VideoStreamInfo where
  codec : CodecType
  width : Option Nat
  height : Option Nat
  bit_rate : Option Nat
  frame_rate : Option FV
  deriving Repr, DecidableEq

/-- Model of `types.rs` `AudioStreamInfo`. -/
structure AudioStreamInfo where
  codec : CodecType
  channels : Option Nat
  sample_rate : Option Nat
  bit_rate : Option Nat
  deriving Repr, DecidableEq

/-- Model of `types.rs` `SubtitleStreamInfo`. -/
structure SubtitleStreamInfo where
  codec : CodecType
  language : Option String
  deriving Repr, DecidableEq

/-- Model of `types.rs` `DataStreamInfo`. -/
structure DataStreamInfo where
  codec : CodecType
  description : Option String
  deriving Repr, DecidableEq

/-- Model of `types.rs` `StreamInfo`. -/
inductive StreamInfo where
  | Video (info : VideoStreamInfo)
  | Audio (info : AudioStreamInfo)
  | Subtitle (info : SubtitleStreamInfo)
  | Data (info : DataStreamInfo)
  deriving Repr, DecidableEq

/-- Model of `probe.rs` `FfprobeStream` (the raw deserialised stream entry);
the serde `HashMap` of tags becomes an association list. -/
structure FfprobeStream where
  codec_type : Option String
  codec_name : Option String
  width : Option Nat
  height : Option Nat
  bit_rate : Option String
  avg_frame_rate : Option String
  channels : Option Nat
  sample_rate : Option String
  tags : Option (List (String × String))
  deriving Repr, DecidableEq

/-- Lookup in the tag map (model of `HashMap::get`). -/
def tagGet (tags : Option (List (String × String))) (key : String) :
    Option String :=
  tags.bind fun m => (m.find? (fun p => p.1 = key)).map Prod.snd

/-- `probe.rs` `stream_info_from_ffprobe`, lines 118-154: dispatch on the
`codec_type` tag (the Rust `match` tries the four string patterns in order,
modelled by the equivalent if-chain); unrecognised or missing tags yield
`none`. -/
def stream_info_from_ffprobe (stream : FfprobeStream) : Option StreamInfo :=
  let codec :=
    (stream.codec_name.map CodecType.from_name).getD (CodecType.Other "unknown")
  if stream.codec_type = some "video" then
    some (.Video ⟨codec, stream.width, stream.height,
      parse_u64 stream.bit_rate, parse_ratio stream.avg_frame_rate⟩)
  else if stream.codec_type = some "audio" then
    some (.Audio ⟨codec, stream.channels, parse_u32 stream.sample_rate,
      parse_u64 stream.bit_rate⟩)
  else if stream.codec_type = some "subtitle" then
    some (.Subtitle ⟨codec, tagGet stream.tags "language"⟩)
  else if stream.codec_type = some "data" then
    some (.Data ⟨codec, tagGet stream.tags "title"⟩)
  else none

/-- The stream list produced by `parse_probe_output`, `probe.rs` lines 71-75:
`streams.into_iter().filter_map(stream_info_from_ffprobe).collect()`. -/
def probeStreams (streams : List FfprobeStream) : List StreamInfo :=
  streams.filterMap stream_info_from_ffprobe

/-! ## `error.rs`, `command.rs`, `transcode.rs` -/

/-- Model of `error.rs` `Error` (the `Io` variant is spelled `IoError`
here; payloads of the wrapped `io`/`serde_json` errors are reduced to their
message strings). -/
inductive Error where
  | FFmpegNotFound (suggestion : Option String)
  | ProcessingError (binary : String) (exit_code : Option Int) (message : String)
  | InvalidInput (msg : String)
  | FilterError (msg : String)
  | TimeoutError (msg : String)
  | IoError (msg : String)
  | Json (msg : String)
  | Parse (msg : String)
  | Unsupported (msg : String)
  deriving Repr, DecidableEq

/-- UTF-8 encoded byte size of one scalar value. -/
def utf8Size (c : Char) : Nat :=
  if c.toNat < 0x80 then 1
  else if c.toNat < 0x800 then 2
  else if c.toNat < 0x10000 then 3
  else 4

/-- UTF-8 byte length of a decoded text (Rust's `String::len`). -/
def strByteLen (l : List Char) : Nat := (l.map utf8Size).sum

/-- The prefix of a decoded text occupying exactly `n` UTF-8 bytes; `none`
when byte index `n` falls strictly inside a character — the case in which
Rust's `String::truncate` panics. -/
def takeBytes : List Char → Nat → Option (List Char)
  | _, 0 => some []
  | [], _ + 1 => some []
  | c :: cs, n + 1 =>
      if utf8Size c ≤ n + 1 then
        (takeBytes cs (n + 1 - utf8Size c)).map (fun t => c :: t)
      else none

/-- `error.rs` `truncate`, lines 97-105, on the decoded text of
`String::from_utf8_lossy(message)` (any scalar-value sequence can arise as
such a decoding).  When the text exceeds `MAX = 4096` bytes the code calls
`String::truncate(4096)` and appends an ellipsis; `none` models the panic
`String::truncate` raises when byte 4096 is not a character boundary. -/
def truncate (text : List Char) : Option (List Char) :=
  let MAX := 4096
  if strByteLen text > MAX then
    (takeBytes text MAX).map (fun t => t ++ ['…'])
  else some text

/-- Model of `command.rs` `FfmpegBinaryPaths`. -/
structure FfmpegBinaryPaths where
  ffmpeg : String
  ffprobe : String
  deriving Repr, DecidableEq

/-- Model of `transcode.rs` `TranscodeBuilder` (paths and raw `OsString`
arguments become `String`). -/
structure TranscodeBuilder where
  binaries : Option FfmpegBinaryPaths
  input : Option String
  output : Option String
  video_codec : Option String
  audio_codec : Option String
  video_bitrate : Option Nat
  audio_bitrate : Option Nat
  frame_rate : Option ℚ
  preset : Option String
  video_filters : List VideoFilter
  audio_filters : List AudioFilter
  extra_args : List String
  overwrite : Bool
  deriving Repr, DecidableEq

/-- The derived `TranscodeBuilder::default()`: every `Option` unset, every
list empty, `overwrite = false` (the derived default of `bool`). -/
def TranscodeBuilder.default : TranscodeBuilder :=
  ⟨none, none, none, none, none, none, none, none, none, [], [], [], false⟩

/-- `TranscodeBuilder::new`, `transcode.rs` lines 31-36: the derived default
with `overwrite` switched on. -/
def TranscodeBuilder.new : TranscodeBuilder :=
  { TranscodeBuilder.default with overwrite := true }

/-- Model of `transcode.rs` `ValidatedTranscode`. -/
structure ValidatedTranscode where
  binaries : FfmpegBinaryPaths
  input : String
  output : String
  video_codec : Option String
  audio_codec : Option String
  video_bitrate : Option Nat
  audio_bitrate : Option Nat
  frame_rate : Option ℚ
  preset : Option String
  video_filters : List VideoFilter
  audio_filters : List AudioFilter
  extra_args : List String
  overwrite : Bool
  deriving Repr, DecidableEq

/-- `TranscodeBuilder::resolve_binaries`, `transcode.rs` lines 188-193.  The
result of the system PATH lookup (`FfmpegLocator::system()`), an external
effect, is passed in as `sys`. -/
def resolve_binaries (binaries : Option FfmpegBinaryPaths)
    (sys : Except Error FfmpegBinaryPaths) : Except Error FfmpegBinaryPaths :=
  match binaries with
  | some paths => .ok paths
  | none => sys

/-- `TranscodeBuilder::validate`, `transcode.rs` lines 195-230: the input
path is demanded first, then the output path, and only then are binaries
resolved; every other field is carried over unchanged. -/
def TranscodeBuilder.validate (b : TranscodeBuilder)
    (sys : Except Error FfmpegBinaryPaths) : Except Error ValidatedTranscode :=
  match b.input with
  | none => .error (.InvalidInput "input path is required")
  | some input =>
      match b.output with
      | none => .error (.InvalidInput "output path is required")
      | some output =>
          match resolve_binaries b.binaries sys with
          | .error e => .error e
          | .ok bins =>
              .ok ⟨bins, input, output, b.video_codec, b.audio_codec,
                b.video_bitrate, b.audio_bitrate, b.frame_rate, b.preset,
                b.video_filters, b.audio_filters, b.extra_args, b.overwrite⟩

/-- Flag/value pair emitted for an optional string field (the
`if let Some(x) = field { cmd.arg(flag).arg(x) }` pattern of
`ValidatedTranscode::run`). -/
def optArg (flag : String) : Option String → List String
  | some v => [flag, v]
  | none => []

/-- The argument sequence accumulated by `ValidatedTranscode::run`,
`transcode.rs` lines 255-305, in the exact order of its `cmd.arg` calls
(the subsequent process spawn is outside the model). -/
def ValidatedTranscode.run_args (v : ValidatedTranscode) : List String :=
  let args := [if v.overwrite then "-y" else "-n"]
  let args := args ++ ["-i", v.input]
  let args := args ++ optArg "-c:v" v.video_codec
  let args := args ++ optArg "-c:a" v.audio_codec
  let args := args ++ optArg "-b:v" (v.video_bitrate.map (fun k => natStr k ++ "k"))
  let args := args ++ optArg "-b:a" (v.audio_bitrate.map (fun k => natStr k ++ "k"))
  let args := args ++ optArg "-r" (v.frame_rate.map fmtRat)
  let args := args ++ optArg "-preset" v.preset
  let vf_strings := v.video_filters.map VideoFilter.to_filter_string
  let args := args ++
    (if vf_strings.isEmpty then [] else ["-vf", joinSep "," vf_strings])
  let af_strings := v.audio_filters.map AudioFilter.to_filter_string
  let args := args ++
    (if af_strings.isEmpty then [] else ["-af", joinSep "," af_strings])
  let args := args ++ v.extra_args
  args ++ [v.output]

/-! ## Spec-side definitions (written from the spec's words, for the
refinement claims) -/

/-- Spec-side rendering of the argument sequence, following the grammar of
spec §4.5 / claim C1 word for word:
`[overwrite-flag] -i <input> [-c:v] [-c:a] [-b:v <kbps>k] [-b:a <kbps>k]
[-r <fps>] [-preset] [-vf <joined>] [-af <joined>] [...extras] <output>`,
the filter flags present only when the respective list is non-empty, filters
joined with `,` in insertion order. -/
def renderSpec (v : ValidatedTranscode) : List String :=
  [if v.overwrite then "-y" else "-n"] ++
  ["-i", v.input] ++
  optArg "-c:v" v.video_codec ++
  optArg "-c:a" v.audio_codec ++
  optArg "-b:v" (v.video_bitrate.map (fun k => natStr k ++ "k")) ++
  optArg "-b:a" (v.audio_bitrate.map (fun k => natStr k ++ "k")) ++
  optArg "-r" (v.frame_rate.map fmtRat) ++
  optArg "-preset" v.preset ++
  (if v.video_filters = [] then []
    else ["-vf", joinSep "," (v.video_filters.map VideoFilter.to_filter_string)]) ++
  (if v.audio_filters = [] then []
    else ["-af", joinSep "," (v.audio_filters.map AudioFilter.to_filter_string)]) ++
  v.extra_args ++
  [v.output]

/-- The manual `HH:MM:SS.mmm` computation described by claim C2: round the
seconds value to the nearest nanosecond, split the whole-second count by
truncating integer division, and round (not truncate) the sub-second part to
the nearest millisecond. -/
def claimTimestampSpec (s : ℚ) : String :=
  let nanos := (rustRound (s * 1000000000)).toNat
  let total_secs := nanos / 1000000000
  let hours := total_secs / 3600
  let minutes := (total_secs % 3600) / 60
  let seconds := total_secs % 60
  let millis := (nanos % 1000000000 + 500000) / 1000000
  pad2 hours ++ ":" ++ pad2 minutes ++ ":" ++ pad2 seconds ++ "." ++ pad3 millis

/-- The amended manual `HH:MM:SS.mmm` computation (claim C2 as corrected):
identical to `claimTimestampSpec` except that the `.mmm` field is the
sub-second part truncated to whole milliseconds. -/
def amendedTimestampSpec (s : ℚ) : String :=
  let nanos := (rustRound (s * 1000000000)).toNat
  let total_secs := nanos / 1000000000
  let hours := total_secs / 3600
  let minutes := (total_secs % 3600) / 60
  let seconds := total_secs % 60
  let millis := (nanos % 1000000000) / 1000000
  pad2 hours ++ ":" ++ pad2 minutes ++ ":" ++ pad2 seconds ++ "." ++ pad3 millis

/-- Spec-side description of the rational frame-rate parse (claim C4 as
corrected): absent input is absent; verbatim `"0/0"` and `"0"` are absent;
with a `/`, absent when either side fails to parse as a number or the
denominator's absolute value is below the `f64` machine epsilon (in
particular when it is zero), otherwise the quotient; without a `/`, the
parsed number itself if it parses, absent otherwise. -/
def ratioSpec (raw : Option String) : Option FV :=
  match raw with
  | none => none
  | some s =>
      if s = "0/0" ∨ s = "0" then none
      else
        match splitOnceList '/' s.data with
        | some (numPart, denPart) =>
            match parseF64 (String.mk numPart), parseF64 (String.mk denPart) with
            | some num, some den =>
                if den.absLt EPSILON then none else some (num.div den)
            | some _, none => none
            | none, _ => none
        | none => parseF64 s

/-! ## Helper lemmas -/

/-- A string free of comma characters. -/
def NoComma (s : String) : Prop := ∀ c ∈ s.data, c ≠ ','

theorem digitChar_ne_comma (d : Nat) : digitChar d ≠ ',' := by
  unfold digitChar
  split <;> decide

theorem natDigitsAux_noComma (fuel : Nat) :
    ∀ n, ∀ c ∈ natDigitsAux fuel n, c ≠ ',' := by
  induction fuel with
  | zero => intro n c hc; simp [natDigitsAux] at hc
  | succ f ih =>
      intro n c hc
      rw [natDigitsAux] at hc
      split at hc
      · simp only [List.mem_singleton] at hc
        exact hc ▸ digitChar_ne_comma n
      · rcases List.mem_append.mp hc with hc | hc
        · exact ih (n / 10) c hc
        · simp only [List.mem_singleton] at hc
          exact hc ▸ digitChar_ne_comma (n % 10)

theorem natDigits_noComma (n : Nat) : ∀ c ∈ natDigits n, c ≠ ',' :=
  natDigitsAux_noComma (n + 1) n

theorem noComma_append {a b : String} (ha : NoComma a) (hb : NoComma b) :
    NoComma (a ++ b) := by
  intro c hc
  rw [String.data_append] at hc
  rcases List.mem_append.mp hc with h | h
  · exact ha c h
  · exact hb c h

theorem noComma_natStr (n : Nat) : NoComma (natStr n) :=
  fun c hc => natDigits_noComma n c hc

theorem noComma_lit {l : List Char} (h : ',' ∉ l) : NoComma (String.mk l) := by
  intro c hc hcomma
  exact h (hcomma ▸ hc)

theorem noComma_pad2 (n : Nat) : NoComma (pad2 n) := by
  unfold pad2
  split
  · exact noComma_append (noComma_lit (by decide)) (noComma_natStr n)
  · exact noComma_natStr n

theorem noComma_pad3 (n : Nat) : NoComma (pad3 n) := by
  unfold pad3
  split
  · exact noComma_append (noComma_lit (by decide)) (noComma_natStr n)
  · split
    · exact noComma_append (noComma_lit (by decide)) (noComma_natStr n)
    · exact noComma_natStr n

theorem noComma_timestamp (t : Time) : NoComma t.to_ffmpeg_timestamp := by
  unfold Time.to_ffmpeg_timestamp
  refine noComma_append (noComma_append (noComma_append (noComma_append
    (noComma_append (noComma_append ?_ ?_) ?_) ?_) ?_) ?_) ?_ <;>
    first
      | exact noComma_pad2 _
      | exact noComma_pad3 _
      | exact noComma_lit (by decide)

theorem fracDigits_noComma (prec num den : Nat) :
    ∀ c ∈ fracDigits prec num den, c ≠ ',' := by
  induction prec generalizing num with
  | zero => intro c hc; simp [fracDigits] at hc
  | succ p ih =>
      intro c hc
      rw [fracDigits] at hc
      split at hc
      · simp at hc
      · rcases List.mem_cons.mp hc with hc | hc
        · exact hc ▸ digitChar_ne_comma _
        · exact ih _ c hc

theorem noComma_fmtRat (q : ℚ) : NoComma (fmtRat q) := by
  unfold fmtRat
  refine noComma_append (noComma_append ?_ (noComma_natStr _)) ?_
  · split
    · exact noComma_lit (by decide)
    · exact noComma_lit (by decide)
  · split
    · exact noComma_lit (by decide)
    · refine noComma_lit ?_
      intro hmem
      rcases List.mem_cons.mp hmem with h | h
      · exact absurd h (by decide)
      · exact fracDigits_noComma _ _ _ ',' h rfl

theorem noComma_joinColon (parts : List String)
    (h : ∀ p ∈ parts, NoComma p) : NoComma (joinSep ":" parts) := by
  induction parts with
  | nil => intro c hc; cases hc
  | cons x xs ih =>
      match xs with
      | [] => exact h x (by simp)
      | y :: ys =>
          rw [joinSep]
          refine noComma_append (noComma_append ?_ (noComma_lit (by decide))) ?_
          · exact h x (by simp)
          · exact ih (fun p hp => h p (List.mem_cons_of_mem x hp))

theorem noComma_optPart {pre : String} (hp : NoComma pre) (o : Option ℚ) :
    ∀ p ∈ optPart pre o, NoComma p := by
  rcases o with _ | v
  · intro p hmem; simp [optPart] at hmem
  · intro p hmem
    simp only [optPart, List.mem_singleton] at hmem
    exact hmem ▸ noComma_append hp (noComma_fmtRat v)

theorem not_mem_of_noComma {s : String} (h : NoComma s) : ',' ∉ s.data :=
  fun hmem => h ',' hmem rfl

/-! ## Claim C1 -/

/-- C1: for every validated transcode request the rendered argument sequence
is exactly the §4.5 grammar — overwrite flag, `-i` input, then each optional
flag/value pair only when configured, `-vf`/`-af` only when the respective
filter list is non-empty (comma-joined, insertion order), the extra raw
arguments, and finally the output path; in particular the concrete request of
the claim renders
`-y -i in.mp4 -c:v libx264 -vf scale=1280:720 out.mp4`. -/
theorem C1_argument_order :
    (∀ v : ValidatedTranscode, v.run_args = renderSpec v) ∧
    (TranscodeBuilder.validate
        { TranscodeBuilder.new with
            input := some "in.mp4"
            output := some "out.mp4"
            video_codec := some "libx264"
            video_filters := [VideoFilter.Scale 1280 720] }
        (.ok ⟨"ffmpeg", "ffprobe"⟩)).map ValidatedTranscode.run_args =
      .ok ["-y", "-i", "in.mp4", "-c:v", "libx264", "-vf", "scale=1280:720",
        "out.mp4"] := by
  constructor
  · intro v
    obtain ⟨bins, inp, out, vc, ac, vb, ab, fr, pr, vfs, afs, ex, ow⟩ := v
    cases vfs <;> cases afs <;>
      simp [ValidatedTranscode.run_args, renderSpec, List.append_assoc]
  · rfl

/-! ## Claim C2 -/

/-- C2 counterexample: at the (dyadic, hence `f64`-exact) input
`s = 1/512 = 0.001953125` the code renders `00:00:00.001` — the sub-second
part `1953125 ns` is truncated to milliseconds by `subsec_millis` — while the
claim's manual computation with millisecond rounding yields `00:00:00.002`. -/
theorem C2_counterexample :
    (Time.from_seconds_f64 (1 / 512)).to_ffmpeg_timestamp = "00:00:00.001" ∧
    claimTimestampSpec (1 / 512) = "00:00:00.002" ∧
    ("00:00:00.001" : String) ≠ "00:00:00.002" := by
  have hr : rustRound ((1 : ℚ) / 512 * 1000000000) = 1953125 := by
    unfold rustRound
    rw [if_pos (by norm_num : (0 : ℚ) ≤ 1 / 512 * 1000000000)]
    have h : ((1 : ℚ) / 512 * 1000000000) + 1 / 2 = 3906251 / 2 := by norm_num
    rw [h]
    norm_num
  refine ⟨?_, ?_, by decide⟩
  · unfold Time.from_seconds_f64
    rw [hr]
    rfl
  · unfold claimTimestampSpec
    rw [hr]
    rfl

/-- C2 (amended): for every non-negative seconds value `s`,
`Time::from_seconds_f64(s).to_ffmpeg_timestamp()` equals the manually
computed zero-padded `HH:MM:SS.mmm` string in which hours, minutes and
seconds come from truncating integer division of the whole-second count and
the `.mmm` field is the sub-second part truncated (not rounded) to whole
milliseconds; floating-point construction first rounds `s` to the nearest
nanosecond before splitting into seconds plus sub-second remainder. -/
theorem C2_amended (s : ℚ) (hs : 0 ≤ s) :
    (Time.from_seconds_f64 s).to_ffmpeg_timestamp = amendedTimestampSpec s := by
  have hq : (0 : ℚ) ≤ s * 1000000000 := by positivity
  have hN : 0 ≤ rustRound (s * 1000000000) := by
    unfold rustRound
    rw [if_pos hq]
    exact Int.le_floor.mpr (by push_cast; linarith)
  unfold Time.from_seconds_f64 Time.to_ffmpeg_timestamp amendedTimestampSpec
    Duration.subsec_millis
  simp only
  have h1 : (rustRound (s * 1000000000) / 1000000000).toNat =
      (rustRound (s * 1000000000)).toNat / 1000000000 := by omega
  have h2 : (rustRound (s * 1000000000) % 1000000000).toNat =
      (rustRound (s * 1000000000)).toNat % 1000000000 := by omega
  rw [h1, h2]

/-- Witness for `C2_amended` at the concrete input `s = 1/2`. -/
theorem C2_amended_witness :
    (0 : ℚ) ≤ 1 / 2 ∧
      (Time.from_seconds_f64 (1 / 2)).to_ffmpeg_timestamp =
        amendedTimestampSpec (1 / 2) :=
  ⟨by norm_num, C2_amended (1 / 2) (by norm_num)⟩

/-! ## Claim C3 -/

theorem noComma_videoFilter (vf : VideoFilter) (h : vf.isCustom = false) :
    NoComma vf.to_filter_string := by
  cases vf with
  | Scale width height =>
      exact noComma_append (noComma_append (noComma_append
        (noComma_lit (by decide)) (noComma_natStr width))
        (noComma_lit (by decide))) (noComma_natStr height)
  | Trim start end_ =>
      rcases end_ with _ | e
      · exact noComma_append (noComma_lit (by decide)) (noComma_timestamp start)
      · exact noComma_append (noComma_append (noComma_append
          (noComma_lit (by decide)) (noComma_timestamp start))
          (noComma_lit (by decide))) (noComma_timestamp e)
  | Crop width height x y =>
      refine noComma_append (noComma_append (noComma_append (noComma_append
        (noComma_append (noComma_append (noComma_append
          (noComma_lit (by decide)) (noComma_natStr width))
          (noComma_lit (by decide))) (noComma_natStr height))
          (noComma_lit (by decide))) (noComma_natStr x))
          (noComma_lit (by decide))) (noComma_natStr y)
  | Rotate degrees =>
      exact noComma_append (noComma_lit (by decide)) (noComma_fmtRat _)
  | Flip direction =>
      show NoComma (if direction = 'h' then "hflip"
        else if direction = 'v' then "vflip" else "hflip")
      split
      · exact noComma_lit (by decide)
      · split
        · exact noComma_lit (by decide)
        · exact noComma_lit (by decide)
  | BrightnessContrast brightness contrast =>
      show NoComma
        (if optPart "brightness=" brightness ++ optPart "contrast=" contrast = []
          then "eq"
          else "eq=" ++ joinSep ":"
            (optPart "brightness=" brightness ++ optPart "contrast=" contrast))
      split
      · exact noComma_lit (by decide)
      · refine noComma_append (noComma_lit (by decide)) (noComma_joinColon _ ?_)
        intro p hp
        rcases List.mem_append.mp hp with hmem | hmem
        · exact noComma_optPart (noComma_lit (by decide)) _ p hmem
        · exact noComma_optPart (noComma_lit (by decide)) _ p hmem
  | Denoise strength => cases strength <;> exact noComma_lit (by decide)
  | Deinterlace => exact noComma_lit (by decide)
  | Custom raw => simp [VideoFilter.isCustom] at h

theorem noComma_audioFilter (af : AudioFilter) (h : af.isCustom = false)
    (hN : ∀ t, af ≠ AudioFilter.Normalization t) :
    NoComma af.to_filter_string := by
  cases af with
  | Volume vol =>
      exact noComma_append (noComma_lit (by decide)) (noComma_fmtRat _)
  | Equalizer bass mid treble =>
      show NoComma
        (if optPart "b=" bass ++ optPart "m=" mid ++ optPart "t=" treble = []
          then "superequalizer"
          else "superequalizer=" ++ joinSep ":"
            (optPart "b=" bass ++ optPart "m=" mid ++ optPart "t=" treble))
      split
      · exact noComma_lit (by decide)
      · refine noComma_append (noComma_lit (by decide)) (noComma_joinColon _ ?_)
        intro p hp
        rcases List.mem_append.mp hp with hmem | hmem
        · rcases List.mem_append.mp hmem with hmem2 | hmem2
          · exact noComma_optPart (noComma_lit (by decide)) _ p hmem2
          · exact noComma_optPart (noComma_lit (by decide)) _ p hmem2
        · exact noComma_optPart (noComma_lit (by decide)) _ p hmem
  | Normalization target_level => exact absurd rfl (hN target_level)
  | HighPass frequency =>
      exact noComma_append (noComma_lit (by decide)) (noComma_fmtRat _)
  | LowPass frequency =>
      exact noComma_append (noComma_lit (by decide)) (noComma_fmtRat _)
  | Custom raw => simp [AudioFilter.isCustom] at h

/-- C3 counterexample: `AudioFilter::Normalization` is not the `Custom`
variant, yet its rendered filter string embeds a comma (the literal fragment
`anlmdn=m=I:p=0.05,loudnorm=I=` chains two filters), refuting the claim that
every non-Custom filter string is comma-free. -/
theorem C3_counterexample :
    (AudioFilter.Normalization (-16)).isCustom = false ∧
    ',' ∈ (AudioFilter.Normalization (-16)).to_filter_string.data := by
  refine ⟨rfl, ?_⟩
  show ',' ∈ ("anlmdn=m=I:p=0.05,loudnorm=I=" ++ fmtRat (-16)).data
  rw [String.data_append]
  exact List.mem_append_left _ (by decide)

/-- C3 (amended): for every non-Custom `VideoFilter` variant and every
non-Custom `AudioFilter` variant other than `Normalization`, the string
produced by `to_filter_string` contains no comma character (the
`Normalization` variant deliberately renders a two-filter chain joined by a
comma, which still splits into well-formed fragments). -/
theorem C3_amended :
    (∀ vf : VideoFilter, vf.isCustom = false →
      ',' ∉ vf.to_filter_string.data) ∧
    (∀ af : AudioFilter, af.isCustom = false →
      (∀ t, af ≠ AudioFilter.Normalization t) →
      ',' ∉ af.to_filter_string.data) :=
  ⟨fun vf h => not_mem_of_noComma (noComma_videoFilter vf h),
    fun af h hN => not_mem_of_noComma (noComma_audioFilter af h hN)⟩

/-- Witness for `C3_amended` at the concrete filters `Scale{1280,720}` and
`Volume(2)`. -/
theorem C3_amended_witness :
    ((VideoFilter.Scale 1280 720).isCustom = false ∧
      ',' ∉ (VideoFilter.Scale 1280 720).to_filter_string.data) ∧
    ((AudioFilter.Volume 2).isCustom = false ∧
      ',' ∉ (AudioFilter.Volume 2).to_filter_string.data) :=
  ⟨⟨rfl, C3_amended.1 _ rfl⟩,
    ⟨rfl, C3_amended.2 _ rfl (fun _ hcontra => AudioFilter.noConfusion hcontra)⟩⟩

/-! ## Claim C4 -/

theorem fvOfRat_finite (q : ℚ) (h1 : ¬ ovThreshold ≤ q)
    (h2 : ¬ q ≤ -ovThreshold) : fvOfRat q = .finite q := by
  unfold fvOfRat
  rw [if_neg h1, if_neg h2]

theorem fdiv_finite (a b : ℚ) (hb : ¬ b = 0) :
    FV.div (.finite a) (.finite b) = .finite (a / b) := by
  simp [FV.div, hb]

theorem parse_ratio_eq_ratioSpec (raw : Option String) :
    parse_ratio raw = ratioSpec raw := by
  rcases raw with _ | s
  · rfl
  · by_cases hg : s = "0/0" ∨ s = "0"
    · simp [parse_ratio, ratioSpec, hg]
    · simp only [parse_ratio, ratioSpec, if_neg hg]
      rcases hsp : splitOnceList '/' s.data with _ | ⟨a, b⟩
      · rfl
      · rcases hn : parseF64 (String.mk a) with _ | n <;>
          rcases hd : parseF64 (String.mk b) with _ | d <;>
          simp [hn, hd]

/-- C4 counterexample: the input `"inf"` contains no slash and parses as the
`f64` infinity, so `parse_ratio` returns it — refuting the claim's final
assertion that the result is never infinity.  (The denominator guard is also
wider than the claim's "denominator is zero": it rejects every denominator
with absolute value below `f64::EPSILON`.) -/
theorem C4_counterexample : parse_ratio (some "inf") = some FV.inf := by
  decide

/-- C4 (amended): the rational parse yields: absent when the input is absent;
absent when the input is verbatim `"0/0"` or `"0"`; for a string containing
`/`, absent when either side fails to parse as a number or the denominator's
absolute value is below the `f64` machine epsilon (in particular when it is
zero), and otherwise the quotient; for a string without `/`, the number
itself if it parses and absent otherwise.  `"30000/1001"` yields
`30000/1001 ≈ 29.97`, `"0/0"` yields absent, `"59.94"` yields `59.94`, and
absent input yields absent.  The result can be an infinity when a parsed
component is itself infinite (e.g. the input `"inf"`). -/
theorem C4_amended :
    (∀ raw : Option String, parse_ratio raw = ratioSpec raw) ∧
    parse_ratio (some "30000/1001") = some (FV.finite (30000 / 1001)) ∧
    parse_ratio (some "0/0") = none ∧
    parse_ratio (some "59.94") = some (FV.finite (5994 / 100)) ∧
    parse_ratio none = none := by
  refine ⟨ parse_ratio_eq_ratioSpec, ?_, by decide, ?_, rfl⟩
  · have hn : parseF64 "30000" = some (FV.finite ((30000 : ℕ) : ℚ)) := by
      rw [show parseF64 "30000" = some (fvOfRat ((30000 : ℕ) : ℚ)) from rfl]
      rw [fvOfRat_finite _ (by norm_num [ovThreshold])
        (by norm_num [ovThreshold])]
    have hd : parseF64 "1001" = some (FV.finite ((1001 : ℕ) : ℚ)) := by
      rw [show parseF64 "1001" = some (fvOfRat ((1001 : ℕ) : ℚ)) from rfl]
      rw [fvOfRat_finite _ (by norm_num [ovThreshold])
        (by norm_num [ovThreshold])]
    rw [show parse_ratio (some "30000/1001") =
        (match parseF64 "30000", parseF64 "1001" with
          | some num, some den =>
              if den.absLt EPSILON then none else some (num.div den)
          | _, _ => none) from rfl, hn, hd]
    show (if (FV.finite ((1001 : ℕ) : ℚ)).absLt EPSILON then none
        else some ((FV.finite ((30000 : ℕ) : ℚ)).div
          (FV.finite ((1001 : ℕ) : ℚ)))) =
      some (FV.finite (30000 / 1001))
    rw [show (FV.finite ((1001 : ℕ) : ℚ)).absLt EPSILON = false from by
      simp [FV.absLt, EPSILON]; norm_num]
    rw [if_neg (by simp)]
    rw [fdiv_finite _ _ (by norm_num)]
    norm_num
  · rw [show parse_ratio (some "59.94") = parseF64 "59.94" from rfl]
    rw [show parseF64 "59.94" =
        some (fvOfRat (((59 : ℕ) : ℚ) + ((94 : ℕ) : ℚ) / 10 ^ 2)) from rfl]
    rw [fvOfRat_finite _ (by norm_num [ovThreshold])
      (by norm_num [ovThreshold])]
    norm_num

/-! ## Claim C5 -/

/-- The names recognised by the fixed table of `CodecType::from_name`. -/
def knownCodecNames : List String :=
  ["h264", "libx264", "hevc", "h265", "libx265", "vp9", "av1", "aac", "mp3",
    "opus", "pcm_s16le", "copy"]

/-- C5: for every known codec name in any casing, `CodecType::from_name` maps
it to the corresponding variant; every unrecognized string yields `Other`
carrying the lower-cased original; composing with `as_str` re-renders the
canonical encoder token — in particular `hevc` re-renders as `libx265`, not
`hevc` — and `as_str` on `Other` returns the stored string unchanged. -/
theorem C5_codec_mapping :
    (∀ s : String,
      (toLowerStr s = "h264" ∨ toLowerStr s = "libx264" →
        CodecType.from_name s = .H264) ∧
      (toLowerStr s = "hevc" ∨ toLowerStr s = "h265" ∨
          toLowerStr s = "libx265" →
        CodecType.from_name s = .Hevc) ∧
      (toLowerStr s = "vp9" → CodecType.from_name s = .Vp9) ∧
      (toLowerStr s = "av1" → CodecType.from_name s = .Av1) ∧
      (toLowerStr s = "aac" → CodecType.from_name s = .Aac) ∧
      (toLowerStr s = "mp3" → CodecType.from_name s = .Mp3) ∧
      (toLowerStr s = "opus" → CodecType.from_name s = .Opus) ∧
      (toLowerStr s = "pcm_s16le" → CodecType.from_name s = .PcmS16Le) ∧
      (toLowerStr s = "copy" → CodecType.from_name s = .Copy) ∧
      (toLowerStr s ∉ knownCodecNames →
        CodecType.from_name s = .Other (toLowerStr s))) ∧
    (∀ name : String, (CodecType.Other name).as_str = name) ∧
    (CodecType.from_name "hevc").as_str = "libx265" ∧
    ("libx265" : String) ≠ "hevc" := by
  refine ⟨fun s => ?_, fun name => rfl, by decide, by decide⟩
  refine ⟨?_, ?_, ?_, ?_, ?_, ?_, ?_, ?_, ?_, ?_⟩
  · intro h
    rcases h with h | h <;>
      simp [CodecType.from_name, CodecType.from_lowered, h]
  · intro h
    rcases h with h | h | h <;>
      simp [CodecType.from_name, CodecType.from_lowered, h]
  · intro h; simp [CodecType.from_name, CodecType.from_lowered, h]
  · intro h; simp [CodecType.from_name, CodecType.from_lowered, h]
  · intro h; simp [CodecType.from_name, CodecType.from_lowered, h]
  · intro h; simp [CodecType.from_name, CodecType.from_lowered, h]
  · intro h; simp [CodecType.from_name, CodecType.from_lowered, h]
  · intro h; simp [CodecType.from_name, CodecType.from_lowered, h]
  · intro h; simp [CodecType.from_name, CodecType.from_lowered, h]
  · intro h
    simp only [knownCodecNames, List.mem_cons, List.not_mem_nil, or_false] at h
    push_neg at h
    obtain ⟨h1, h2, h3, h4, h5, h6, h7, h8, h9, h10, h11, h12⟩ := h
    simp [CodecType.from_name, CodecType.from_lowered,
      h1, h2, h3, h4, h5, h6, h7, h8, h9, h10, h11, h12]

/-- Witness for `C5_codec_mapping` at the concrete inputs `"HEVC"` (a known
name in upper casing) and `"WeIrD"` (an unrecognized name). -/
theorem C5_codec_mapping_witness :
    (toLowerStr "HEVC" = "hevc" ∧ CodecType.from_name "HEVC" = .Hevc) ∧
    (toLowerStr "WeIrD" ∉ knownCodecNames ∧
      CodecType.from_name "WeIrD" = .Other "weird") := by
  refine ⟨⟨by decide, (C5_codec_mapping.1 "HEVC").2.1 (Or.inl (by decide))⟩,
    ⟨by decide, ?_⟩⟩
  have h := (C5_codec_mapping.1 "WeIrD").2.2.2.2.2.2.2.2.2 (by decide)
  rw [h]
  rw [show toLowerStr "WeIrD" = "weird" from by decide]

/-! ## Claim C6 -/

/-- C6: evaluation of `parse_duration` at the failing input.  A duration
string `"-1"` inside a well-formed report parses successfully as the `f64`
value `-1.0`, which `Duration::from_secs_f64` rejects with a panic (modelled
by the outer `none`) — so a field-level problem does abort the whole probe,
contradicting the claim; unparsable strings (`"abc"`) and missing fields do
degrade to absent (`some none`) as the claim describes. -/
theorem C6_parse_duration_panic :
    parse_duration (some "-1") = none ∧
    parse_duration (some "abc") = some none ∧
    parse_duration none = some none := by
  have h1 : parseF64 "-1" = some (fvOfRat (-(1 : ℚ))) := by
    rw [show parseF64 "-1" = some (fvOfRat (-((1 : ℕ) : ℚ))) from rfl]
    norm_num
  have h2 : fvOfRat (-(1 : ℚ)) = .finite (-(1 : ℚ)) :=
    fvOfRat_finite _ (by norm_num [ovThreshold]) (by norm_num [ovThreshold])
  have h3 : Duration.from_secs_f64 (.finite (-(1 : ℚ))) = none := by
    have hneg : ¬ (0 : ℚ) ≤ -(1 : ℚ) := by norm_num
    simp [Duration.from_secs_f64, hneg]
  exact ⟨by simp [parse_duration, h1, h2, h3], rfl, rfl⟩

/-! ## Claim C7 -/

/-- Whether a raw stream entry carries one of the four recognised
`codec_type` tags. -/
def recognizedB (s : FfprobeStream) : Bool :=
  decide (s.codec_type = some "video") ||
  decide (s.codec_type = some "audio") ||
  decide (s.codec_type = some "subtitle") ||
  decide (s.codec_type = some "data")

/-- The conversion `stream_info_from_ffprobe` performs on recognised entries,
made total (the default branch is never reached on recognised entries). -/
def convStream (s : FfprobeStream) : StreamInfo :=
  (stream_info_from_ffprobe s).getD (.Data ⟨CodecType.Other "unknown", none⟩)

theorem recognizedB_eq_isSome (s : FfprobeStream) :
    recognizedB s = (stream_info_from_ffprobe s).isSome := by
  unfold recognizedB stream_info_from_ffprobe
  split_ifs <;> simp_all

/-- C7: a raw stream entry survives into the stream list if and only if its
`codec_type` tag is one of `video`/`audio`/`subtitle`/`data`; the retained
streams are exactly the recognised entries converted in the report's order;
and concretely, entries tagged `"unknown"` or missing the tag are dropped
with no error while the others keep their order. -/
theorem C7_stream_filtering :
    (∀ s : FfprobeStream, (stream_info_from_ffprobe s).isSome ↔
      (s.codec_type = some "video" ∨ s.codec_type = some "audio" ∨
        s.codec_type = some "subtitle" ∨ s.codec_type = some "data")) ∧
    (∀ entries : List FfprobeStream,
      probeStreams entries = (entries.filter recognizedB).map convStream) ∧
    probeStreams
        [⟨some "video", some "h264", some 1920, some 1080, none, none, none,
            none, none⟩,
          ⟨some "unknown", some "h264", none, none, none, none, none, none,
            none⟩,
          ⟨none, none, none, none, none, none, none, none, none⟩,
          ⟨some "audio", some "aac", none, none, none, none, some 2, none,
            none⟩] =
      [.Video ⟨.H264, some 1920, some 1080, none, none⟩,
        .Audio ⟨.Aac, some 2, none, none⟩] := by
  refine ⟨?_, ?_, by decide⟩
  · intro s
    unfold stream_info_from_ffprobe
    split_ifs <;> simp_all
  · intro entries
    induction entries with
    | nil => rfl
    | cons s rest ih =>
        rw [show probeStreams (s :: rest) =
          List.filterMap stream_info_from_ffprobe (s :: rest) from rfl,
          List.filterMap_cons, List.filter_cons]
        cases h : stream_info_from_ffprobe s with
        | none =>
            have hb : recognizedB s = false := by
              rw [recognizedB_eq_isSome, h]; rfl
            rw [hb]
            simpa using ih
        | some v =>
            have hb : recognizedB s = true := by
              rw [recognizedB_eq_isSome, h]; rfl
            rw [hb]
            simp only [if_true, List.map_cons, convStream, h, Option.getD_some]
            exact congrArg (v :: ·) ih

/-! ## Claim C8 -/

/-- C8: a builder missing the input path (or, with an input, missing the
output path) fails validation with the invalid-input error kind, whatever the
outcome of the system binary lookup would be — the check precedes binary
resolution, and no process is involved in `validate` at all; with both paths
set and binaries resolvable, validation succeeds carrying every other field
over unchanged, and a builder with only the two paths set renders just the
overwrite flag, `-i <input>` and `<output>` — the unset fields are omitted
rather than rejected. -/
theorem C8_validation (b : TranscodeBuilder)
    (sys : Except Error FfmpegBinaryPaths) :
    (b.input = none →
      b.validate sys = .error (.InvalidInput "input path is required")) ∧
    (∀ i, b.input = some i → b.output = none →
      b.validate sys = .error (.InvalidInput "output path is required")) ∧
    (∀ i o bp, b.input = some i → b.output = some o →
      resolve_binaries b.binaries sys = .ok bp →
      b.validate sys = .ok ⟨bp, i, o, b.video_codec, b.audio_codec,
        b.video_bitrate, b.audio_bitrate, b.frame_rate, b.preset,
        b.video_filters, b.audio_filters, b.extra_args, b.overwrite⟩) ∧
    (∀ i o bp2,
      (TranscodeBuilder.validate
          { TranscodeBuilder.default with
              binaries := some bp2, input := some i, output := some o }
          sys).map ValidatedTranscode.run_args = .ok ["-n", "-i", i, o]) := by
  refine ⟨?_, ?_, ?_, ?_⟩
  · intro h
    unfold TranscodeBuilder.validate
    rw [h]
  · intro i hi ho
    unfold TranscodeBuilder.validate
    rw [hi, ho]
  · intro i o bp hi ho hb
    unfold TranscodeBuilder.validate
    rw [hi, ho, hb]
  · intro i o bp2
    rfl

/-- Witness for `C8_validation`: concrete builders exercising each conjunct,
with a failing system lookup in the missing-path cases to show the
invalid-input error wins over binary resolution. -/
theorem C8_validation_witness :
    TranscodeBuilder.default.validate (.error (.FFmpegNotFound none)) =
      .error (.InvalidInput "input path is required") ∧
    ({ TranscodeBuilder.default with input := some "in.mp4" } :
        TranscodeBuilder).validate (.error (.FFmpegNotFound none)) =
      .error (.InvalidInput "output path is required") ∧
    ({ TranscodeBuilder.default with
        input := some "in.mp4", output := some "out.mp4" } :
        TranscodeBuilder).validate (.ok ⟨"ffmpeg", "ffprobe"⟩) =
      .ok ⟨⟨"ffmpeg", "ffprobe"⟩, "in.mp4", "out.mp4", none, none, none, none,
        none, none, [], [], [], false⟩ ∧
    (TranscodeBuilder.validate
        { TranscodeBuilder.default with
            binaries := some ⟨"ffmpeg", "ffprobe"⟩, input := some "a",
            output := some "b" }
        (.ok ⟨"ffmpeg", "ffprobe"⟩)).map ValidatedTranscode.run_args =
      .ok ["-n", "-i", "a", "b"] :=
  ⟨(C8_validation TranscodeBuilder.default
      (.error (.FFmpegNotFound none))).1 rfl,
    (C8_validation { TranscodeBuilder.default with input := some "in.mp4" }
      (.error (.FFmpegNotFound none))).2.1 "in.mp4" rfl rfl,
    (C8_validation
      { TranscodeBuilder.default with
          input := some "in.mp4", output := some "out.mp4" }
      (.ok ⟨"ffmpeg", "ffprobe"⟩)).2.2.1 "in.mp4" "out.mp4"
      ⟨"ffmpeg", "ffprobe"⟩ rfl rfl rfl,
    (C8_validation TranscodeBuilder.default
      (.ok ⟨"ffmpeg", "ffprobe"⟩)).2.2.2 "a" "b" ⟨"ffmpeg", "ffprobe"⟩⟩

/-! ## Claim C9 -/

theorem strByteLen_append (a b : List Char) :
    strByteLen (a ++ b) = strByteLen a + strByteLen b := by
  simp [strByteLen]

theorem strByteLen_replicate (k : Nat) (c : Char) :
    strByteLen (List.replicate k c) = k * utf8Size c := by
  induction k with
  | zero => simp [strByteLen]
  | succ m ih =>
      rw [List.replicate_succ]
      show utf8Size c + strByteLen (List.replicate m c) = (m + 1) * utf8Size c
      rw [ih]
      ring

theorem takeBytes_replicate_append :
    ∀ k n rest, k ≤ n →
      takeBytes (List.replicate k 'a' ++ rest) n =
        (takeBytes rest (n - k)).map (fun t => List.replicate k 'a' ++ t) := by
  intro k
  induction k with
  | zero =>
      intro n rest _
      simp only [List.replicate_zero, List.nil_append, Nat.sub_zero]
      cases takeBytes rest n <;> rfl
  | succ m ih =>
      intro n rest hk
      cases n with
      | zero => omega
      | succ p =>
          rw [List.replicate_succ, List.cons_append]
          show (if utf8Size 'a' ≤ p + 1 then
              (takeBytes (List.replicate m 'a' ++ rest)
                (p + 1 - utf8Size 'a')).map (fun t => 'a' :: t)
            else none) =
            (takeBytes rest (p + 1 - (m + 1))).map
              (fun t => List.replicate (m + 1) 'a' ++ t)
          have hsz : utf8Size 'a' = 1 := rfl
          rw [hsz, if_pos (by omega : 1 ≤ p + 1)]
          rw [show p + 1 - 1 = p from rfl]
          rw [ih p rest (by omega)]
          rw [show p + 1 - (m + 1) = p - m by omega]
          cases takeBytes rest (p - m) <;> simp [List.replicate_succ]

theorem takeBytes_replicate_self :
    ∀ n k, n ≤ k → takeBytes (List.replicate k 'a') n =
      some (List.replicate n 'a') := by
  intro n
  induction n with
  | zero => intro k _; cases List.replicate k 'a' <;> rfl
  | succ p ih =>
      intro k hk
      cases k with
      | zero => omega
      | succ q =>
          rw [List.replicate_succ]
          show (if utf8Size 'a' ≤ p + 1 then
              (takeBytes (List.replicate q 'a') (p + 1 - utf8Size 'a')).map
                (fun t => 'a' :: t)
            else none) = some (List.replicate (p + 1) 'a')
          have hsz : utf8Size 'a' = 1 := rfl
          rw [hsz, if_pos (by omega : 1 ≤ p + 1)]
          rw [show p + 1 - 1 = p from rfl]
          rw [ih q (by omega)]
          rfl

/-- C9: evaluation of the stderr `truncate` helper at the failing input.  On
the decoded text `4095 × 'a'` followed by `'é'` (which arises from the valid
UTF-8 stderr bytes `4095 × 0x61` then `0xC3 0xA9`), the text is 4097 bytes
long, byte index 4096 falls inside the final two-byte character, and Rust's
`String::truncate(4096)` panics (the `none`) — so the truncation is NOT total,
contradicting the claim.  On an all-ASCII overlong text the normal path cuts
at 4096 bytes and appends the ellipsis marker, as the claim describes.  Note
the limit counts bytes, not characters as the claim says. -/
theorem C9_truncate_panic :
    truncate (List.replicate 4095 'a' ++ ['é']) = none ∧
    truncate (List.replicate 4097 'a') =
      some (List.replicate 4096 'a' ++ ['…']) := by
  constructor
  · unfold truncate
    rw [if_pos (by
      rw [strByteLen_append, strByteLen_replicate]
      decide)]
    rw [takeBytes_replicate_append 4095 4096 ['é'] (by omega)]
    rw [show (4096 : Nat) - 4095 = 1 from rfl]
    rw [show takeBytes ['é'] 1 = none from by decide]
    rfl
  · unfold truncate
    rw [if_pos (by rw [strByteLen_replicate]; decide)]
    rw [takeBytes_replicate_self 4096 4097 (by omega)]
    rfl

/-! ## Claim C10 -/

/-- C10: the two constructors disagree exactly on the overwrite flag —
`TranscodeBuilder::new()` enables it (rendering `-y`), the derived
`TranscodeBuilder::default()` leaves it disabled (rendering `-n`) — and every
other field of `new()` is the derived default; the rendered argument sequence
always starts with the flag corresponding to the overwrite setting. -/
theorem C10_constructor_defaults :
    TranscodeBuilder.new.overwrite = true ∧
    TranscodeBuilder.default.overwrite = false ∧
    TranscodeBuilder.new =
      { TranscodeBuilder.default with overwrite := true } ∧
    (∀ v : ValidatedTranscode,
      v.run_args.head? = some (if v.overwrite then "-y" else "-n")) :=
  ⟨rfl, rfl, rfl, fun _ => rfl⟩

end FfmpegLight
